import Mathlib

/-!
# Verification of the correlated log batching & delivery subsystem

Shallow embedding of the client-side structured-logger of `common-react`
(`src/utils/logger.ts`, `src/utils/requestId.ts`, `src/utils/log-schema.ts`):

* percent-decoding (`decodeURIComponent`) and cookie parsing,
* correlation-id resolution (`getRequestId`, `getClientRequestIdForLog`,
  `ClientLogShipper.getRequestIdFromCookie`),
* the batching state machine (`ClientLogShipper.addLog` / `flush` /
  `forceFlush`), with the pending `setTimeout` timers modelled explicitly,
* the browser write-path context enrichment (`contextWithRequestId`,
  `logObj`) and the console-interception argument folding (`serializeArgs`).

Strings are processed over `List Char`; JavaScript objects are modelled as
association lists where a later binding for a key overrides an earlier one
(the semantics of object spread).
-/

/-! ## decodeURIComponent -/

/-- Value of a hexadecimal digit, `none` when the character is not a hex
digit (mirrors the escape-sequence validation of `decodeURIComponent`). -/
def hexDigitVal (c : Char) : Option Nat :=
  if '0' ≤ c ∧ c ≤ '9' then some (c.toNat - '0'.toNat)
  else if 'a' ≤ c ∧ c ≤ 'f' then some (c.toNat - 'a'.toNat + 10)
  else if 'A' ≤ c ∧ c ≤ 'F' then some (c.toNat - 'A'.toNat + 10)
  else none

/-- UTF-8 encoding of a single character as a byte list. -/
def utf8EncodeChar (c : Char) : List Nat :=
  let n := c.toNat
  if n < 0x80 then [n]
  else if n < 0x800 then [0xC0 + n / 64, 0x80 + n % 64]
  else if n < 0x10000 then
    [0xE0 + n / 4096, 0x80 + (n / 64) % 64, 0x80 + n % 64]
  else
    [0xF0 + n / 262144, 0x80 + (n / 4096) % 64, 0x80 + (n / 64) % 64,
     0x80 + n % 64]

/-- First pass of `decodeURIComponent`: turn `%XX` escapes into bytes and
other characters into their UTF-8 bytes; `none` when an escape is truncated
or has a non-hex digit (the cases where `decodeURIComponent` throws a
`URIError` before byte-sequence validation). -/
def percentBytes : List Char → Option (List Nat)
  | [] => some []
  | '%' :: h1 :: h2 :: rest => do
    let v1 ← hexDigitVal h1
    let v2 ← hexDigitVal h2
    let bs ← percentBytes rest
    pure ((16 * v1 + v2) :: bs)
  | '%' :: _ => none
  | c :: rest => do
    let bs ← percentBytes rest
    pure (utf8EncodeChar c ++ bs)

/-- Second pass of `decodeURIComponent`: strict UTF-8 decoding of the byte
stream.  Arguments: bytes, number of continuation bytes still expected,
accumulated code point, minimal code point admissible for the current
sequence (overlong-encoding check).  `none` models a thrown `URIError`. -/
def utf8DecodeGo : List Nat → Nat → Nat → Nat → Option (List Char)
  | [], 0, _, _ => some []
  | [], _ + 1, _, _ => none
  | b :: rest, 0, _, _ =>
    if b < 0x80 then (utf8DecodeGo rest 0 0 0).map (Char.ofNat b :: ·)
    else if b < 0xC0 then none
    else if b < 0xE0 then utf8DecodeGo rest 1 (b - 0xC0) 0x80
    else if b < 0xF0 then utf8DecodeGo rest 2 (b - 0xE0) 0x800
    else if b < 0xF8 then utf8DecodeGo rest 3 (b - 0xF0) 0x10000
    else none
  | b :: rest, 1, acc, minCp =>
    if 0x80 ≤ b ∧ b < 0xC0 then
      let cp := acc * 64 + (b - 0x80)
      if minCp ≤ cp ∧ cp < 0x110000 ∧ ¬(0xD800 ≤ cp ∧ cp < 0xE000) then
        (utf8DecodeGo rest 0 0 0).map (Char.ofNat cp :: ·)
      else none
    else none
  | b :: rest, n + 2, acc, minCp =>
    if 0x80 ≤ b ∧ b < 0xC0 then
      utf8DecodeGo rest (n + 1) (acc * 64 + (b - 0x80)) minCp
    else none

/-- Model of the JavaScript `decodeURIComponent` builtin on character
lists; `none` models a thrown `URIError`. -/
def decodeURIComponentL (cs : List Char) : Option (List Char) :=
  (percentBytes cs).bind (utf8DecodeGo · 0 0 0)

/-- `decodeURIComponent` on strings. -/
def decodeURIComponentS (s : String) : Option String :=
  (decodeURIComponentL s.toList).map (⟨·⟩)

/-! ## Cookie parsing (`requestId.ts` and `ClientLogShipper`) -/

/-- JavaScript `String.prototype.split` with a one-character separator:
`"".split(sep)` is `[""]`, separators at the ends produce empty pieces. -/
def splitOnChar (sep : Char) : List Char → List (List Char)
  | [] => [[]]
  | c :: rest =>
    let r := splitOnChar sep rest
    if c = sep then [] :: r
    else
      match r with
      | cur :: tail => (c :: cur) :: tail
      | [] => [[c]]

/-- JavaScript `String.prototype.trim` (whitespace at both ends). -/
def trimChars (cs : List Char) : List Char :=
  ((cs.dropWhile Char.isWhitespace).reverse.dropWhile Char.isWhitespace).reverse

/-- JavaScript `String.prototype.indexOf` for a single character,
`none` standing for the `-1` result. -/
def indexOfChar (c : Char) : List Char → Option Nat
  | [] => none
  | x :: rest => if x = c then some 0 else (indexOfChar c rest).map (· + 1)

/-- Cookie name holding the upstream request id
(`REQUEST_ID_COOKIE_NAME = 'x-request-id'`). -/
def xRequestIdName : List Char := "x-request-id".toList

/-- Loop body of `getRequestId` (`requestId.ts`): scan the `';'`-split
cookie pieces; for the first piece whose (trimmed) name is `cookieName`
with a non-empty (trimmed) value, percent-decode the value, falling back
to the raw value when decoding throws (`try/catch` in the source);
otherwise continue, and return `''` when no piece matches. -/
def getRequestIdGo (cookieName : List Char) : List (List Char) → List Char
  | [] => []
  | c :: rest =>
    let trimmed := trimChars c
    if trimmed = [] then getRequestIdGo cookieName rest
    else
      match indexOfChar '=' trimmed with
      | none => getRequestIdGo cookieName rest
      | some eq =>
        let name := trimChars (trimmed.take eq)
        let value := trimChars (trimmed.drop (eq + 1))
        if name = cookieName ∧ value ≠ [] then
          match decodeURIComponentL value with
          | some d => d
          | none => value
        else getRequestIdGo cookieName rest

/-- `getRequestId` from `requestId.ts`: `hasDocument` models the
`typeof document === 'undefined'` guard (returns `''` outside a browser). -/
def getRequestIdL (hasDocument : Bool) (cookie : List Char)
    (cookieName : List Char) : List Char :=
  if hasDocument then getRequestIdGo cookieName (splitOnChar ';' cookie)
  else []

/-- `getRequestId()` at its default cookie name, in a browser, on strings. -/
def getRequestIdS (cookie : String) : String :=
  ⟨getRequestIdL true cookie.toList xRequestIdName⟩

/-- `getClientRequestIdForLog` from `logger.ts`.  State passing makes the
module-level mutable `clientSessionRequestId` explicit: `sess` is its value
before the call, the second component of the result its value after.
`cryptoOk` models `typeof crypto !== 'undefined' && crypto.randomUUID`,
and `uuid` is the value `crypto.randomUUID()` would mint on this call. -/
def getClientRequestIdForLog (isBrowser cryptoOk : Bool) (cookie : String)
    (sess : Option String) (uuid : String) : String × Option String :=
  if isBrowser then
    let fromCookie := getRequestIdS cookie
    if fromCookie ≠ "" then (fromCookie, sess)
    else
      let sess' := if sess.getD "" = "" ∧ cryptoOk then some uuid else sess
      (sess'.getD "", sess')
  else ("", sess)

/-- Loop body of `ClientLogShipper.getRequestIdFromCookie` (`logger.ts`).
Unlike `getRequestId`, this variant splits each piece on *every* `'='`,
never trims the value, and calls `decodeURIComponent` with **no**
`try/catch`: the outer `none` models the escaping `URIError`, `some none`
the `null` return, `some (some v)` a found value.  A piece named
`x-request-id` with no `'='` destructures `value` to `undefined`, which
`decodeURIComponent` coerces to the string `"undefined"`. -/
def shipperCookieGo : List (List Char) → Option (Option (List Char))
  | [] => some none
  | c :: rest =>
    let parts := splitOnChar '=' (trimChars c)
    if parts.headD [] = xRequestIdName then
      match parts[1]? with
      | some v => (decodeURIComponentL v).map some
      | none => some (some ("undefined".toList))
    else shipperCookieGo rest

/-- `ClientLogShipper.getRequestIdFromCookie` over the cookie string. -/
def getRequestIdFromCookieL (cookie : List Char) : Option (Option (List Char)) :=
  shipperCookieGo (splitOnChar ';' cookie)


/-! ## The batching state machine (`ClientLogShipper`) -/

/-- Log levels of the facade (`LogLevel` in `logger.ts`). -/
inductive LogLevel where
  | debug
  | info
  | warn
  | error
deriving DecidableEq

/-- A JavaScript value as it appears in log contexts: a string, the
`undefined` value, an opaque caller value (tokenised by a number), or an
array of values. -/
inductive LVal where
  | str : String → LVal
  | undef : LVal
  | nat : Nat → LVal
  | arr : List LVal → LVal

/-- A queued log event (the element type of `ClientLogShipper.logQueue`):
level, message, optional context object, and the `new Date().toISOString()`
capture time (modelled as an opaque number). -/
structure LogEvent where
  level : LogLevel
  message : String
  context : Option (List (String × LVal))
  timestamp : Nat

/-- `BATCH_SIZE` from `ClientLogShipper`. -/
def BATCH_SIZE : Nat := 10

/-- `FLUSH_INTERVAL_MS` from `ClientLogShipper` (the model is untimed: a
pending timer may fire at any step, which over-approximates "after 5000
ms"). -/
def FLUSH_INTERVAL_MS : Nat := 5000

/-- State of one `ClientLogShipper` together with its runtime environment:

* `logQueue` — the buffered events, oldest first;
* `pendingTimers` — the handles of `setTimeout` timers currently scheduled
  in the runtime (scheduling appends a fresh handle, `clearTimeout` and
  firing remove one);
* `flushTimer` — the shipper's `flushTimer` field (`null` ↦ `none`);
* `nextHandle` — fresh-handle counter of the runtime;
* `deliveries` — the batches for which a delivery attempt (`sendBeacon`
  or `fetch`) was issued, in order;
* `rejections` — number of times the `async flush()` promise rejected
  (an exception escaped before the `try` block). -/
structure ShipperState where
  logQueue : List LogEvent
  pendingTimers : List Nat
  flushTimer : Option Nat
  nextHandle : Nat
  deliveries : List (List LogEvent)
  rejections : Nat

/-- The state of a freshly constructed shipper. -/
def initShipper : ShipperState :=
  { logQueue := [], pendingTimers := [], flushTimer := none,
    nextHandle := 0, deliveries := [], rejections := 0 }

/-- The `if (this.flushTimer) { clearTimeout(...); this.flushTimer = null }`
step at the top of `flush`. -/
def clearTimerStep (s : ShipperState) : ShipperState :=
  match s.flushTimer with
  | some h => { s with pendingTimers := s.pendingTimers.erase h, flushTimer := none }
  | none => s

/-- `ClientLogShipper.flush`.  The body has no `await`, so it runs
atomically.  `resolveOk` is whether the request-id resolution line
(`this.getRequestIdFromCookie() || ...`) returns normally — `false` models
the uncaught `URIError` from `decodeURIComponent`, which rejects the
promise after the queue was already drained and the timer cleared.
`serializeOk` is whether `JSON.stringify(payload)` inside the `try`
succeeds — `false` models a non-serializable context: the error is caught
and the batch silently dropped without a delivery attempt. -/
def flush (resolveOk serializeOk : Bool) (s : ShipperState) : ShipperState :=
  if s.logQueue.length = 0 then s
  else
    let s1 := clearTimerStep s
    let batch := s1.logQueue
    let s2 := { s1 with logQueue := [] }
    if resolveOk then
      if serializeOk then { s2 with deliveries := s2.deliveries ++ [batch] }
      else s2
    else { s2 with rejections := s2.rejections + 1 }

/-- `ClientLogShipper.addLog`: append the event, flush when the batch size
is reached, otherwise schedule a single-shot flush timer when none is
recorded in the `flushTimer` field. -/
def addLog (resolveOk serializeOk : Bool) (e : LogEvent) (s : ShipperState) :
    ShipperState :=
  if BATCH_SIZE ≤ (s.logQueue ++ [e]).length then
    flush resolveOk serializeOk { s with logQueue := s.logQueue ++ [e] }
  else if s.flushTimer = none then
    { s with logQueue := s.logQueue ++ [e],
             pendingTimers := s.pendingTimers ++ [s.nextHandle],
             flushTimer := some s.nextHandle,
             nextHandle := s.nextHandle + 1 }
  else { s with logQueue := s.logQueue ++ [e] }

/-- A scheduled timer `h` fires: the runtime removes it from the pending
set and runs the callback `() => { this.flush(); }`. -/
def timerFire (h : Nat) (resolveOk serializeOk : Bool) (s : ShipperState) :
    ShipperState :=
  flush resolveOk serializeOk { s with pendingTimers := s.pendingTimers.erase h }

/-- `ClientLogShipper.forceFlush` (page-unload handler): flush only when
the queue is non-empty. -/
def forceFlush (resolveOk serializeOk : Bool) (s : ShipperState) : ShipperState :=
  if 0 < s.logQueue.length then flush resolveOk serializeOk s else s

/-- `flush` as it actually runs in the browser: the request-id resolution
succeeds exactly when `getRequestIdFromCookie` does not throw on the
current `document.cookie`. -/
def flushBrowser (cookie : String) (serializeOk : Bool) (s : ShipperState) :
    ShipperState :=
  flush (getRequestIdFromCookieL cookie.toList).isSome serializeOk s

/-- The states a shipper/runtime pair can reach: any interleaving of
`addLog` calls, fires of actually-pending timers, and forced flushes, each
under an arbitrary environment (`r` = request-id resolution succeeds,
`k` = payload serialization succeeds). -/
inductive Reachable : ShipperState → Prop where
  | init : Reachable initShipper
  | add (r k : Bool) (e : LogEvent) {s : ShipperState} :
      Reachable s → Reachable (addLog r k e s)
  | fire (r k : Bool) (h : Nat) {s : ShipperState} :
      Reachable s → h ∈ s.pendingTimers → Reachable (timerFire h r k s)
  | force (r k : Bool) {s : ShipperState} :
      Reachable s → Reachable (forceFlush r k s)

/-- The inductive invariant: the runtime's pending-timer set is exactly
what the `flushTimer` field records, and an empty queue has no timer. -/
def ShipperInv (s : ShipperState) : Prop :=
  s.pendingTimers = s.flushTimer.toList ∧ (s.logQueue = [] → s.flushTimer = none)

lemma flush_clears (r k : Bool) (s : ShipperState)
    (hpn : s.pendingTimers = [] ∨ s.pendingTimers = s.flushTimer.toList)
    (hq : s.logQueue ≠ []) :
    (flush r k s).logQueue = [] ∧ (flush r k s).pendingTimers = [] ∧
      (flush r k s).flushTimer = none := by
  have hq' : ¬(s.logQueue.length = 0) := fun hc => hq (List.length_eq_zero.mp hc)
  unfold flush
  rw [if_neg hq']
  cases hf : s.flushTimer with
  | none =>
    have hp0 : s.pendingTimers = [] := by
      rcases hpn with h | h
      · exact h
      · simpa [hf] using h
    cases r <;> cases k <;> simp [clearTimerStep, hf, hp0]
  | some h0 =>
    have hp0 : s.pendingTimers.erase h0 = [] := by
      rcases hpn with h | h
      · rw [h]; rfl
      · rw [h, hf]; simp
    cases r <;> cases k <;> simp [clearTimerStep, hf, hp0]

lemma flush_inv (r k : Bool) (s : ShipperState)
    (hpn : s.pendingTimers = [] ∨ s.pendingTimers = s.flushTimer.toList)
    (hq : s.logQueue ≠ []) : ShipperInv (flush r k s) := by
  obtain ⟨h1, h2, h3⟩ := flush_clears r k s hpn hq
  exact ⟨by rw [h2, h3]; rfl, fun _ => h3⟩

lemma flush_deliveries (r k : Bool) (s : ShipperState) (hq : s.logQueue ≠ []) :
    (flush r k s).deliveries =
      if r ∧ k then s.deliveries ++ [s.logQueue] else s.deliveries := by
  have hq' : ¬(s.logQueue.length = 0) := fun hc => hq (List.length_eq_zero.mp hc)
  unfold flush
  rw [if_neg hq']
  cases hf : s.flushTimer with
  | none => cases r <;> cases k <;> simp [clearTimerStep, hf]
  | some h0 => cases r <;> cases k <;> simp [clearTimerStep, hf]

lemma shipper_inv_reachable : ∀ s, Reachable s → ShipperInv s := by
  intro s h
  induction h with
  | init => exact ⟨rfl, fun _ => rfl⟩
  | @add r k e t _ ih =>
    rcases ih with ⟨hp, hq⟩
    unfold addLog
    by_cases hlen : BATCH_SIZE ≤ (t.logQueue ++ [e]).length
    · rw [if_pos hlen]
      refine flush_inv r k _ (Or.inr ?_) ?_
      · exact hp
      · show t.logQueue ++ [e] ≠ []
        simp
    · rw [if_neg hlen]
      by_cases hft : t.flushTimer = none
      · rw [if_pos hft]
        refine ⟨?_, ?_⟩
        · show t.pendingTimers ++ [t.nextHandle] = (some t.nextHandle).toList
          rw [hp, hft]
          rfl
        · intro hc
          exact absurd hc (by simp)
      · rw [if_neg hft]
        refine ⟨hp, ?_⟩
        intro hc
        exact absurd hc (by simp)
  | @fire r k h0 t _ hmem ih =>
    rcases ih with ⟨hp, hq⟩
    have hft : t.flushTimer = some h0 := by
      cases hf : t.flushTimer with
      | none =>
        rw [hp, hf] at hmem
        simp at hmem
      | some h1 =>
        rw [hp, hf] at hmem
        simp at hmem
        rw [hmem]
    have hqne : t.logQueue ≠ [] := by
      intro hc
      rw [hq hc] at hft
      exact Option.noConfusion hft
    show ShipperInv (flush r k { t with pendingTimers := t.pendingTimers.erase h0 })
    refine flush_inv r k _ (Or.inl ?_) ?_
    · show t.pendingTimers.erase h0 = []
      rw [hp, hft]
      simp
    · exact hqne
  | @force r k t _ ih =>
    rcases ih with ⟨hp, hq⟩
    unfold forceFlush
    by_cases hqe : 0 < t.logQueue.length
    · rw [if_pos hqe]
      refine flush_inv r k t (Or.inr hp) ?_
      intro hc
      rw [hc] at hqe
      simp at hqe
    · rw [if_neg hqe]
      exact ⟨hp, hq⟩

/-! ## Browser write-path enrichment and console interception -/

/-- Lookup in a JavaScript object modelled as an association list with
later bindings overriding earlier ones (object-spread semantics). -/
def jget (o : List (String × LVal)) (k : String) : Option LVal :=
  o.foldl (fun acc p => if p.1 = k then some p.2 else acc) none

lemma jget_foldl_acc (k : String) (o : List (String × LVal))
    (acc : Option LVal) :
    o.foldl (fun a p => if p.1 = k then some p.2 else a) acc =
      match jget o k with
      | some v => some v
      | none => acc := by
  induction o generalizing acc with
  | nil => simp [jget]
  | cons p rest ih =>
    show rest.foldl _ (if p.1 = k then some p.2 else acc) = _
    rw [ih]
    have hrec : jget (p :: rest) k =
        match jget rest k with
        | some v => some v
        | none => if p.1 = k then some p.2 else none := by
      show rest.foldl _ (if p.1 = k then some p.2 else none) = _
      rw [ih]
    rw [hrec]
    cases jget rest k <;> cases h : decide (p.1 = k) <;>
      simp_all

lemma jget_append (o₁ o₂ : List (String × LVal)) (k : String) :
    jget (o₁ ++ o₂) k =
      match jget o₂ k with
      | some v => some v
      | none => jget o₁ k := by
  show (o₁ ++ o₂).foldl _ none = _
  rw [List.foldl_append]
  exact jget_foldl_acc k o₂ (jget o₁ k)

/-- The `contextWithRequestId` object of the browser `write` hook:
`{ ...context, requestId: requestId || undefined }`. -/
def contextWithRequestId (ctx : List (String × LVal)) (rid : String) :
    List (String × LVal) :=
  ctx ++ [("requestId", if rid = "" then LVal.undef else LVal.str rid)]

/-- The `logObj` object of the browser `write` hook:
`{ level, message, timestamp, ...contextWithRequestId }`.  `ctx` is the
caller context as the hook receives it from pino (the `{ level, msg,
...context }` destructuring has already removed pino's own message keys). -/
def logObj (levelLabel msg ts : String) (ctx : List (String × LVal))
    (rid : String) : List (String × LVal) :=
  [("level", LVal.str levelLabel), ("message", LVal.str msg),
   ("timestamp", LVal.str ts)] ++ contextWithRequestId ctx rid

lemma logObj_requestId (levelLabel msg ts : String)
    (ctx : List (String × LVal)) (rid : String) :
    jget (logObj levelLabel msg ts ctx rid) "requestId" =
      some (if rid = "" then LVal.undef else LVal.str rid) := by
  unfold logObj contextWithRequestId
  rw [jget_append]
  have h2 : jget (ctx ++ [("requestId", if rid = "" then LVal.undef else LVal.str rid)])
      "requestId" = some (if rid = "" then LVal.undef else LVal.str rid) := by
    rw [jget_append]
    simp [jget]
  rw [h2]

lemma logObj_caller_key (levelLabel msg ts : String)
    (ctx : List (String × LVal)) (rid : String) (k : String)
    (hk : k ≠ "requestId") (hin : jget ctx k ≠ none) :
    jget (logObj levelLabel msg ts ctx rid) k = jget ctx k := by
  unfold logObj contextWithRequestId
  rw [jget_append]
  have h2 : jget (ctx ++ [("requestId", if rid = "" then LVal.undef else LVal.str rid)])
      k = jget ctx k := by
    rw [jget_append]
    have : jget [("requestId", if rid = "" then LVal.undef else LVal.str rid)] k
        = none := by
      have hk' : ¬("requestId" = k) := fun h => hk h.symm
      simp [jget, hk']
    rw [this]
  rw [h2]
  cases hc : jget ctx k with
  | none => exact absurd hc hin
  | some v => rfl

/-- `LOG_SCHEMA_FIELDS` from `log-schema.ts`. -/
structure LogSchemaFields where
  level : String
  message : String
  timestamp : String
  service : String
  request_id : String

/-- The unified schema field names (`LOG_SCHEMA_FIELDS` literal). -/
def LOG_SCHEMA_FIELDS : LogSchemaFields :=
  { level := "level", message := "message", timestamp := "timestamp",
    service := "service", request_id := "request_id" }

/-- `JSON.stringify` as used by `serializeArgs` on a non-string first
argument.  String quoting/escaping and array rendering are simplified;
the claims never depend on the rendered text of a non-string argument. -/
def stringifyModel : LVal → String
  | LVal.str s => "\"" ++ s ++ "\""
  | LVal.undef => "undefined"
  | LVal.nat n => toString n
  | LVal.arr _ => "[...]"

/-- `serializeArgs` from `patchConsoleForStructuredLogging`: zero arguments
give the empty message and **no** context; otherwise the first argument
becomes the message (as-is when a string, stringified otherwise) and the
context carries the schema `service` and `request_id` fields plus the
remaining arguments folded into `args`. -/
def serializeArgs (service : String) (args : List LVal) :
    String × Option (List (String × LVal)) :=
  match args with
  | [] => ("", none)
  | first :: rest =>
    let message := match first with
      | LVal.str s => s
      | v => stringifyModel v
    let base : List (String × LVal) :=
      [(LOG_SCHEMA_FIELDS.service, LVal.str service),
       (LOG_SCHEMA_FIELDS.request_id, LVal.str "")]
    let context := match rest with
      | [] => base
      | [r] => base ++ [("args", r)]
      | rs => base ++ [("args", LVal.arr rs)]
    (message, some context)

/-- The structured record the server-side sink emits for one intercepted
console call: schema `level`/`message`/`timestamp` fields plus the bound
context fields, if any (pino with `messageKey: message`, the level and
timestamp formatters of `createLogger`, and `LoggerWrapper` passing the
context as bindings only when present). -/
def serverLogRecord (levelLabel ts msg : String)
    (ctx : Option (List (String × LVal))) : List (String × LVal) :=
  [("level", LVal.str levelLabel), ("message", LVal.str msg),
   ("timestamp", LVal.str ts)] ++ ctx.getD []

/-- One intercepted `console.*` call end-to-end: fold the arguments with
`serializeArgs`, then render the record through the server sink. -/
def interceptRecord (service levelLabel ts : String) (args : List LVal) :
    List (String × LVal) :=
  serverLogRecord levelLabel ts (serializeArgs service args).1
    (serializeArgs service args).2

/-! ## Claim theorems: queue / timer / delivery behaviour -/

/-- A sample log event used by witnesses. -/
def evt (n : Nat) : LogEvent :=
  { level := LogLevel.info, message := "m", context := none, timestamp := n }

/-- C8: a `flush` — including a `forceFlush` on page teardown — invoked
while the queue is empty is a no-op: no batch is produced, no delivery
attempt is made, and the state (queue included) is unchanged. -/
theorem empty_queue_flush_noop (r k : Bool) (s : ShipperState)
    (h : s.logQueue = []) : flush r k s = s ∧ forceFlush r k s = s := by
  have h0 : s.logQueue.length = 0 := by rw [h]; rfl
  have h1 : flush r k s = s := by
    unfold flush
    rw [if_pos h0]
  refine ⟨h1, ?_⟩
  unfold forceFlush
  rw [h0]
  rw [if_neg (lt_irrefl 0)]

/-- Witness for C8 at the initial (empty-queue) state. -/
theorem empty_queue_flush_noop_witness :
    flush true true initShipper = initShipper ∧
      forceFlush true true initShipper = initShipper :=
  empty_queue_flush_noop true true initShipper rfl

/-- C9: in every reachable state, an empty log queue has no pending flush
timer (`flushTimer` is `null` and no runtime timer is scheduled), so the
early return of `flush` on an empty queue never skips clearing a live
timer. -/
theorem empty_queue_no_pending_timer (s : ShipperState) (h : Reachable s)
    (hq : s.logQueue = []) :
    s.flushTimer = none ∧ s.pendingTimers = [] := by
  obtain ⟨hp, hqt⟩ := shipper_inv_reachable s h
  have hf := hqt hq
  exact ⟨hf, by rw [hp, hf]; rfl⟩

/-- Witness for C9 at the initial state. -/
theorem empty_queue_no_pending_timer_witness :
    initShipper.flushTimer = none ∧ initShipper.pendingTimers = [] :=
  empty_queue_no_pending_timer initShipper Reachable.init rfl

/-- C3: in every reachable state at most one flush timer is pending, and
every flush — size-triggered (an `addLog` that reaches `BATCH_SIZE`), a
timer fire, or a forced flush on a non-empty queue — leaves no pending
timer and a cleared `flushTimer` field. -/
theorem timer_cleared_on_every_flush (s : ShipperState) (h : Reachable s)
    (r k : Bool) (e : LogEvent) (h0 : Nat) :
    s.pendingTimers.length ≤ 1
    ∧ (BATCH_SIZE ≤ s.logQueue.length + 1 →
        (addLog r k e s).pendingTimers = [] ∧ (addLog r k e s).flushTimer = none)
    ∧ (h0 ∈ s.pendingTimers →
        (timerFire h0 r k s).pendingTimers = []
          ∧ (timerFire h0 r k s).flushTimer = none)
    ∧ (s.logQueue ≠ [] →
        (forceFlush r k s).pendingTimers = []
          ∧ (forceFlush r k s).flushTimer = none) := by
  obtain ⟨hp, hq⟩ := shipper_inv_reachable s h
  refine ⟨?_, ?_, ?_, ?_⟩
  · rw [hp]
    cases s.flushTimer <;> simp
  · intro hlen
    have hlen' : BATCH_SIZE ≤ (s.logQueue ++ [e]).length := by
      simpa using hlen
    unfold addLog
    rw [if_pos hlen']
    obtain ⟨_, h2, h3⟩ :=
      flush_clears r k { s with logQueue := s.logQueue ++ [e] }
        (Or.inr hp) (by simp)
    exact ⟨h2, h3⟩
  · intro hmem
    have hft : s.flushTimer = some h0 := by
      cases hf : s.flushTimer with
      | none =>
        rw [hp, hf] at hmem
        simp at hmem
      | some h1 =>
        rw [hp, hf] at hmem
        simp at hmem
        rw [hmem]
    have hqne : s.logQueue ≠ [] := by
      intro hc
      rw [hq hc] at hft
      exact Option.noConfusion hft
    unfold timerFire
    obtain ⟨_, h2, h3⟩ :=
      flush_clears r k { s with pendingTimers := s.pendingTimers.erase h0 }
        (Or.inl (by show s.pendingTimers.erase h0 = []; rw [hp, hft]; simp))
        hqne
    exact ⟨h2, h3⟩
  · intro hqne
    unfold forceFlush
    rw [if_pos (List.length_pos.mpr hqne)]
    obtain ⟨_, h2, h3⟩ := flush_clears r k s (Or.inr hp) hqne
    exact ⟨h2, h3⟩

/-- Witness for C3: after one `addLog` a timer (handle 0) is pending; its
fire leaves no pending timer. -/
theorem timer_cleared_on_every_flush_witness :
    (addLog true true (evt 0) initShipper).pendingTimers.length ≤ 1
    ∧ (timerFire 0 true true (addLog true true (evt 0) initShipper)).pendingTimers = []
    ∧ (timerFire 0 true true (addLog true true (evt 0) initShipper)).flushTimer = none := by
  have h := timer_cleared_on_every_flush (addLog true true (evt 0) initShipper)
    (Reachable.add true true (evt 0) Reachable.init) true true (evt 1) 0
  exact ⟨h.1, (h.2.2.1 (by decide)).1, (h.2.2.1 (by decide)).2⟩

/-- C2: ten back-to-back `addLog` calls starting from the empty queue make
no delivery attempt during the first nine (the queue just accumulates the
prefix in order), exactly one delivery attempt immediately at the tenth,
carrying exactly the ten events in insertion order; afterwards the queue
is empty and no timer is pending. -/
theorem ten_adds_single_delivery (a b c d e f g h i j : LogEvent) :
    (∀ n, n < 10 →
      ((([a,b,c,d,e,f,g,h,i,j].take n).foldl
          (fun t ev => addLog true true ev t) initShipper).deliveries = []
        ∧ (([a,b,c,d,e,f,g,h,i,j].take n).foldl
          (fun t ev => addLog true true ev t) initShipper).logQueue
            = [a,b,c,d,e,f,g,h,i,j].take n))
    ∧ ([a,b,c,d,e,f,g,h,i,j].foldl
        (fun t ev => addLog true true ev t) initShipper).deliveries
          = [[a,b,c,d,e,f,g,h,i,j]]
    ∧ ([a,b,c,d,e,f,g,h,i,j].foldl
        (fun t ev => addLog true true ev t) initShipper).logQueue = []
    ∧ ([a,b,c,d,e,f,g,h,i,j].foldl
        (fun t ev => addLog true true ev t) initShipper).pendingTimers = [] := by
  have h1 : addLog true true a initShipper
      = ⟨[a], [0], some 0, 1, [], 0⟩ := rfl
  have h2 : addLog true true b (⟨[a], [0], some 0, 1, [], 0⟩ : ShipperState)
      = ⟨[a,b], [0], some 0, 1, [], 0⟩ := rfl
  have h3 : addLog true true c (⟨[a,b], [0], some 0, 1, [], 0⟩ : ShipperState)
      = ⟨[a,b,c], [0], some 0, 1, [], 0⟩ := rfl
  have h4 : addLog true true d (⟨[a,b,c], [0], some 0, 1, [], 0⟩ : ShipperState)
      = ⟨[a,b,c,d], [0], some 0, 1, [], 0⟩ := rfl
  have h5 : addLog true true e (⟨[a,b,c,d], [0], some 0, 1, [], 0⟩ : ShipperState)
      = ⟨[a,b,c,d,e], [0], some 0, 1, [], 0⟩ := rfl
  have h6 : addLog true true f (⟨[a,b,c,d,e], [0], some 0, 1, [], 0⟩ : ShipperState)
      = ⟨[a,b,c,d,e,f], [0], some 0, 1, [], 0⟩ := rfl
  have h7 : addLog true true g (⟨[a,b,c,d,e,f], [0], some 0, 1, [], 0⟩ : ShipperState)
      = ⟨[a,b,c,d,e,f,g], [0], some 0, 1, [], 0⟩ := rfl
  have h8 : addLog true true h (⟨[a,b,c,d,e,f,g], [0], some 0, 1, [], 0⟩ : ShipperState)
      = ⟨[a,b,c,d,e,f,g,h], [0], some 0, 1, [], 0⟩ := rfl
  have h9 : addLog true true i (⟨[a,b,c,d,e,f,g,h], [0], some 0, 1, [], 0⟩ : ShipperState)
      = ⟨[a,b,c,d,e,f,g,h,i], [0], some 0, 1, [], 0⟩ := rfl
  have h10 : addLog true true j
      (⟨[a,b,c,d,e,f,g,h,i], [0], some 0, 1, [], 0⟩ : ShipperState)
      = ⟨[], [], none, 1, [[a,b,c,d,e,f,g,h,i,j]], 0⟩ := rfl
  refine ⟨?_, ?_, ?_, ?_⟩
  · intro n hn
    interval_cases n <;>
      exact ⟨by simp only [List.take, List.foldl, h1, h2, h3, h4, h5, h6, h7,
          h8, h9] <;> rfl,
        by simp only [List.take, List.foldl, h1, h2, h3, h4, h5, h6, h7,
          h8, h9] <;> rfl⟩
  · simp only [List.foldl, h1, h2, h3, h4, h5, h6, h7, h8, h9, h10]
  · simp only [List.foldl, h1, h2, h3, h4, h5, h6, h7, h8, h9, h10]
  · simp only [List.foldl, h1, h2, h3, h4, h5, h6, h7, h8, h9, h10]

/-- Witness for C2 at ten concrete events. -/
theorem ten_adds_single_delivery_witness :
    ((([evt 0, evt 1, evt 2, evt 3, evt 4, evt 5, evt 6, evt 7, evt 8,
        evt 9].take 3).foldl
      (fun t ev => addLog true true ev t) initShipper).deliveries = [])
    ∧ ([evt 0, evt 1, evt 2, evt 3, evt 4, evt 5, evt 6, evt 7, evt 8,
        evt 9].foldl
      (fun t ev => addLog true true ev t) initShipper).deliveries
        = [[evt 0, evt 1, evt 2, evt 3, evt 4, evt 5, evt 6, evt 7, evt 8,
            evt 9]] := by
  have h := ten_adds_single_delivery (evt 0) (evt 1) (evt 2) (evt 3) (evt 4)
    (evt 5) (evt 6) (evt 7) (evt 8) (evt 9)
  exact ⟨(h.1 3 (by decide)).1, h.2.1⟩

/-- C1 (refuted, code bug): with a malformed percent-encoded carrier
cookie, the request-id resolution line of `flush` — which runs *before*
the `try`/`catch` — throws, so the `async flush()` promise rejects; no
caller (`addLog`, the timer callback, `forceFlush`) awaits or catches it,
an unhandled rejection the code's own "logging should never break the
app" comments rule out.  The queued batch is also lost without a delivery
attempt. -/
theorem flush_rejects_on_malformed_cookie :
    getRequestIdFromCookieL ("x-request-id=%ZZ".toList) = none
    ∧ (flushBrowser "x-request-id=%ZZ" true
        (addLog true true (evt 0) initShipper)).rejections = 1
    ∧ (flushBrowser "x-request-id=%ZZ" true
        (addLog true true (evt 0) initShipper)).deliveries = []
    ∧ (flushBrowser "x-request-id=%ZZ" true
        (addLog true true (evt 0) initShipper)).logQueue = [] :=
  ⟨by decide, rfl, rfl, rfl⟩

/-! ## Claim theorems: correlation resolution and enrichment -/

/-- C4: whenever the carrier cookie resolves to a non-empty value, the
resolution returns exactly that value — for **every** session-cache state,
in particular when a minted identifier is already cached — the cache is
left untouched, and the enriched event's `requestId` field equals the
carrier value. -/
theorem carrier_wins_over_session_cache (cookie : String) (cOk : Bool)
    (sess : Option String) (uuid : String) (lvl msg ts : String)
    (ctx : List (String × LVal)) (hc : getRequestIdS cookie ≠ "") :
    getClientRequestIdForLog true cOk cookie sess uuid
      = (getRequestIdS cookie, sess)
    ∧ jget (logObj lvl msg ts ctx
        (getClientRequestIdForLog true cOk cookie sess uuid).1) "requestId"
      = some (LVal.str (getRequestIdS cookie)) := by
  have h1 : getClientRequestIdForLog true cOk cookie sess uuid
      = (getRequestIdS cookie, sess) := by
    unfold getClientRequestIdForLog
    simp [hc]
  refine ⟨h1, ?_⟩
  rw [h1]
  have h2 := logObj_requestId lvl msg ts ctx (getRequestIdS cookie)
  rw [if_neg hc] at h2
  exact h2

/-- Witness for C4: the carrier value `abc` wins over a cached mint and a
caller-forged `requestId`. -/
theorem carrier_wins_over_session_cache_witness :
    getRequestIdS "x-request-id=abc" = "abc"
    ∧ (getClientRequestIdForLog true true "x-request-id=abc" (some "cached") "u"
        = (getRequestIdS "x-request-id=abc", some "cached")
      ∧ jget (logObj "info" "m" "t" [("requestId", LVal.str "forged")]
          (getClientRequestIdForLog true true "x-request-id=abc"
            (some "cached") "u").1) "requestId"
        = some (LVal.str (getRequestIdS "x-request-id=abc"))) :=
  ⟨by decide,
    carrier_wins_over_session_cache "x-request-id=abc" true (some "cached")
      "u" "info" "m" "t" [("requestId", LVal.str "forged")] (by decide)⟩

/-- C5: with no carrier present, the first log call mints the fresh
identifier and caches it; every later call with a cached non-empty
identifier returns the same value and leaves the cache unchanged (for any
cookie still resolving to no carrier and any fresh uuid the runtime would
offer); enrichment attaches exactly that value.  Hence the correlation
identifier of ≥ 2 consecutive calls in one session is one and the same
non-empty minted value. -/
theorem minted_id_stable_in_session :
    (∀ (cookie u : String), getRequestIdS cookie = "" → u ≠ "" →
      getClientRequestIdForLog true true cookie none u = (u, some u)
        ∧ (getClientRequestIdForLog true true cookie none u).1 ≠ "")
    ∧ (∀ (cookie v u2 : String), getRequestIdS cookie = "" → v ≠ "" →
      getClientRequestIdForLog true true cookie (some v) u2 = (v, some v))
    ∧ (∀ (v lvl msg ts : String) (ctx : List (String × LVal)), v ≠ "" →
      jget (logObj lvl msg ts ctx v) "requestId" = some (LVal.str v)) := by
  refine ⟨?_, ?_, ?_⟩
  · intro cookie u hc hu
    have h1 : getClientRequestIdForLog true true cookie none u = (u, some u) := by
      unfold getClientRequestIdForLog
      simp [hc]
    refine ⟨h1, ?_⟩
    rw [h1]
    exact hu
  · intro cookie v u2 hc hv
    unfold getClientRequestIdForLog
    simp [hc, hv]
  · intro v lvl msg ts ctx hv
    have h2 := logObj_requestId lvl msg ts ctx v
    rw [if_neg hv] at h2
    exact h2

/-- Witness for C5: two consecutive calls with an absent carrier both yield
the first minted value `mint1`. -/
theorem minted_id_stable_in_session_witness :
    (getClientRequestIdForLog true true "" none "mint1" = ("mint1", some "mint1")
      ∧ (getClientRequestIdForLog true true "" none "mint1").1 ≠ "")
    ∧ getClientRequestIdForLog true true "" (some "mint1") "mint2"
        = ("mint1", some "mint1")
    ∧ jget (logObj "info" "m" "t" [] "mint1") "requestId"
        = some (LVal.str "mint1") :=
  ⟨minted_id_stable_in_session.1 "" "mint1" (by decide) (by decide),
    minted_id_stable_in_session.2.1 "" "mint1" "mint2" (by decide) (by decide),
    minted_id_stable_in_session.2.2 "mint1" "info" "m" "t" [] (by decide)⟩

/-- C7: in the browser write hook's `logObj`, a caller-supplied context key
is never overwritten by a schema key (`level`, `message`, `timestamp`) —
the context is spread last — except `requestId`, which is always forced to
the resolved correlation value (`undefined` when that value is empty),
whatever the caller supplied for it. -/
theorem context_merge_preserves_caller_keys (lvl msg ts : String)
    (ctx : List (String × LVal)) (rid : String) (k : String)
    (hk : k ≠ "requestId") (hin : jget ctx k ≠ none) :
    jget (logObj lvl msg ts ctx rid) k = jget ctx k
    ∧ jget (logObj lvl msg ts ctx rid) "requestId"
      = some (if rid = "" then LVal.undef else LVal.str rid) :=
  ⟨logObj_caller_key lvl msg ts ctx rid k hk hin,
    logObj_requestId lvl msg ts ctx rid⟩

/-- Witness for C7: a caller-supplied `level` key survives the merge while
a caller-forged `requestId` is overridden by the resolved value. -/
theorem context_merge_preserves_caller_keys_witness :
    jget (logObj "info" "m" "t"
        [("level", LVal.str "HACK"), ("requestId", LVal.str "forged")] "rid1")
        "level"
      = jget [("level", LVal.str "HACK"), ("requestId", LVal.str "forged")]
          "level"
    ∧ jget (logObj "info" "m" "t"
        [("level", LVal.str "HACK"), ("requestId", LVal.str "forged")] "rid1")
        "requestId"
      = some (if "rid1" = "" then LVal.undef else LVal.str "rid1") :=
  context_merge_preserves_caller_keys "info" "m" "t"
    [("level", LVal.str "HACK"), ("requestId", LVal.str "forged")] "rid1"
    "level" (by decide) (by simp [jget])

/-- C10: a zero-argument console interception forwards the empty string as
the message with no context at all, so the resulting record lacks the
schema `service` and `request_id` fields, whereas every interception with
at least one argument attaches both. -/
theorem zero_args_interception_lacks_schema_fields (service lvl ts : String) :
    serializeArgs service [] = ("", none)
    ∧ jget (interceptRecord service lvl ts []) "service" = none
    ∧ jget (interceptRecord service lvl ts []) "request_id" = none
    ∧ jget (interceptRecord service lvl ts []) "message" = some (LVal.str "")
    ∧ (∀ (a : LVal) (rest : List LVal),
        jget ((serializeArgs service (a :: rest)).2.getD []) "service"
          = some (LVal.str service)
        ∧ jget ((serializeArgs service (a :: rest)).2.getD []) "request_id"
          = some (LVal.str "")
        ∧ jget (interceptRecord service lvl ts (a :: rest)) "service"
          = some (LVal.str service)
        ∧ jget (interceptRecord service lvl ts (a :: rest)) "request_id"
          = some (LVal.str "")) := by
  refine ⟨rfl, rfl, rfl, rfl, ?_⟩
  intro a rest
  cases rest with
  | nil => exact ⟨rfl, rfl, rfl, rfl⟩
  | cons b rest2 =>
    cases rest2 with
    | nil => exact ⟨rfl, rfl, rfl, rfl⟩
    | cons c rest3 => exact ⟨rfl, rfl, rfl, rfl⟩

/-! ## Claim theorems: malformed carrier values (C6) -/

lemma dropWhile_eq_self_of (p : Char → Bool) (l : List Char)
    (h : ∀ c ∈ l, ¬ p c) : l.dropWhile p = l := by
  cases l with
  | nil => rfl
  | cons c rest =>
    have hc := h c (List.mem_cons_self c rest)
    simp [List.dropWhile_cons, hc]

lemma trimChars_eq_self (l : List Char) (h : ∀ c ∈ l, ¬ c.isWhitespace) :
    trimChars l = l := by
  unfold trimChars
  rw [dropWhile_eq_self_of _ _ h]
  rw [dropWhile_eq_self_of _ _ (fun c hc => h c (List.mem_reverse.mp hc))]
  exact List.reverse_reverse l

lemma splitOnChar_of_not_mem (sep : Char) (cs : List Char) (h : sep ∉ cs) :
    splitOnChar sep cs = [cs] := by
  induction cs with
  | nil => rfl
  | cons c rest ih =>
    have hc : ¬(c = sep) := fun hh => h (by rw [hh]; exact List.mem_cons_self sep rest)
    have hrest : sep ∉ rest := fun hh => h (List.mem_cons_of_mem c hh)
    simp only [splitOnChar, ih hrest]
    rw [if_neg hc]

lemma splitOnChar_single_sep (sep : Char) (a b : List Char) (ha : sep ∉ a)
    (hb : sep ∉ b) : splitOnChar sep (a ++ sep :: b) = [a, b] := by
  induction a with
  | nil =>
    show splitOnChar sep (sep :: b) = [[], b]
    simp only [splitOnChar]
    rw [if_pos trivial, splitOnChar_of_not_mem sep b hb]
  | cons c rest ih =>
    have hc : ¬(c = sep) := fun hh => ha (by rw [hh]; exact List.mem_cons_self sep rest)
    have hrest : sep ∉ rest := fun hh => ha (List.mem_cons_of_mem c hh)
    show splitOnChar sep (c :: (rest ++ sep :: b)) = [c :: rest, b]
    simp only [splitOnChar]
    rw [if_neg hc, ih hrest]

lemma indexOfChar_append (c : Char) (a b : List Char) (ha : c ∉ a) :
    indexOfChar c (a ++ c :: b) = some a.length := by
  induction a with
  | nil =>
    show indexOfChar c (c :: b) = some 0
    simp [indexOfChar]
  | cons x rest ih =>
    have hx : ¬(x = c) := fun hh => ha (by rw [hh]; exact List.mem_cons_self c rest)
    have hrest : c ∉ rest := fun hh => ha (List.mem_cons_of_mem x hh)
    show indexOfChar c (x :: (rest ++ c :: b)) = some (rest.length + 1)
    simp only [indexOfChar]
    rw [if_neg hx, ih hrest]
    rfl

/-- C6 counterexample: for the malformed percent-encoded carrier value
`%ZZ` (whose decoding throws), `getRequestId` does **not** treat the
carrier as absent: it returns the raw value `%ZZ`, and correlation
resolution yields `%ZZ` — not the session-cached identifier the claim
requires. -/
theorem malformed_carrier_not_treated_absent :
    decodeURIComponentS "%ZZ" = none
    ∧ getRequestIdS "x-request-id=%ZZ" = "%ZZ"
    ∧ getClientRequestIdForLog true true "x-request-id=%ZZ" (some "cached")
        "fresh" = ("%ZZ", some "cached")
    ∧ ("%ZZ" : String) ≠ "cached" ∧ ("%ZZ" : String) ≠ "fresh"
    ∧ ("%ZZ" : String) ≠ "" :=
  ⟨by decide, by decide, by decide, by decide, by decide, by decide⟩

/-- C6 amended: a malformed carrier value (one whose percent-decoding
throws) is **not** treated as absent and does not raise from
`getRequestId`: the `try`/`catch` there returns the raw undecoded value,
which becomes the correlation identifier, and the session cache is neither
consulted nor updated.  The shipper-internal `getRequestIdFromCookie`, by
contrast, has no `catch` and propagates the decode error.  (Stated for a
cookie consisting of the carrier entry alone, with a value free of `;`,
`=` and whitespace so that it survives cookie splitting untouched.) -/
theorem malformed_carrier_returns_raw (v : String) (sess : Option String)
    (u : String) (hv : v ≠ "") (hdec : decodeURIComponentL v.toList = none)
    (hsemi : ';' ∉ v.toList) (heq : '=' ∉ v.toList)
    (hws : ∀ c ∈ v.toList, ¬ c.isWhitespace) :
    getRequestIdS ("x-request-id=" ++ v) = v
    ∧ getClientRequestIdForLog true true ("x-request-id=" ++ v) sess u
        = (v, sess)
    ∧ getRequestIdFromCookieL ("x-request-id=" ++ v).toList = none := by
  have hlv : v.toList ≠ [] := by
    intro hc
    apply hv
    have : v = (⟨v.toList⟩ : String) := by cases v; rfl
    rw [this, hc]
  have hcat : ("x-request-id=" ++ v).toList
      = "x-request-id".toList ++ '=' :: v.toList := by
    cases v
    rfl
  have hpiece : "x-request-id".toList ++ '=' :: v.toList ≠ [] := by simp
  have hnosemi : ';' ∉ "x-request-id".toList ++ '=' :: v.toList := by
    intro hmem
    rcases List.mem_append.mp hmem with hm | hm
    · exact absurd hm (by decide)
    · rcases List.mem_cons.mp hm with hm2 | hm2
      · exact absurd hm2 (by decide)
      · exact hsemi hm2
  have hsplit : splitOnChar ';' ("x-request-id".toList ++ '=' :: v.toList)
      = ["x-request-id".toList ++ '=' :: v.toList] :=
    splitOnChar_of_not_mem ';' _ hnosemi
  have hallws : ∀ c ∈ "x-request-id".toList ++ '=' :: v.toList,
      ¬ c.isWhitespace := by
    intro c hmem
    rcases List.mem_append.mp hmem with hm | hm
    · have hpre : ∀ x ∈ "x-request-id".toList, ¬ x.isWhitespace := by decide
      exact hpre c hm
    · rcases List.mem_cons.mp hm with hm2 | hm2
      · rw [hm2]
        decide
      · exact hws c hm2
  have htrim : trimChars ("x-request-id".toList ++ '=' :: v.toList)
      = "x-request-id".toList ++ '=' :: v.toList :=
    trimChars_eq_self _ hallws
  have hidx : indexOfChar '=' ("x-request-id".toList ++ '=' :: v.toList)
      = some ("x-request-id".toList).length :=
    indexOfChar_append '=' _ v.toList (by decide)
  have htake : ("x-request-id".toList ++ '=' :: v.toList).take
      ("x-request-id".toList).length = "x-request-id".toList :=
    List.take_left _ _
  have hsplit2 : "x-request-id".toList ++ '=' :: v.toList
      = ("x-request-id".toList ++ ['=']) ++ v.toList := by simp
  have hdrop : ("x-request-id".toList ++ '=' :: v.toList).drop
      (("x-request-id".toList).length + 1) = v.toList := by
    rw [hsplit2]
    have hlen : ("x-request-id".toList).length + 1
        = ("x-request-id".toList ++ ['=']).length := by simp
    rw [hlen]
    exact List.drop_left _ _
  have hgo : getRequestIdGo xRequestIdName
      ["x-request-id".toList ++ '=' :: v.toList] = v.toList := by
    simp only [getRequestIdGo, htrim, hidx]
    rw [if_neg hpiece]
    rw [htake, hdrop]
    rw [trimChars_eq_self v.toList hws]
    have hname : trimChars ("x-request-id".toList) = xRequestIdName := by decide
    rw [hname]
    rw [if_pos ⟨rfl, hlv⟩]
    rw [hdec]
  have hmain : getRequestIdS ("x-request-id=" ++ v) = v := by
    show (⟨getRequestIdL true ("x-request-id=" ++ v).toList xRequestIdName⟩ :
      String) = v
    rw [getRequestIdL, if_pos rfl, hcat, hsplit, hgo]
    cases v
    rfl
  refine ⟨hmain, ?_, ?_⟩
  · unfold getClientRequestIdForLog
    simp [hmain, hv]
  · show shipperCookieGo (splitOnChar ';' ("x-request-id=" ++ v).toList) = none
    rw [hcat, hsplit]
    simp only [shipperCookieGo, htrim]
    rw [splitOnChar_single_sep '=' ("x-request-id".toList) v.toList
      (by decide) heq]
    have hhead : (["x-request-id".toList, v.toList]).headD [] = xRequestIdName := by
      show "x-request-id".toList = xRequestIdName
      decide
    rw [if_pos hhead]
    show (decodeURIComponentL v.toList).map some = none
    rw [hdec]
    rfl

/-- Witness for the amended C6 at the malformed value `%ZZ` with a cached
session identifier. -/
theorem malformed_carrier_returns_raw_witness :
    getRequestIdS ("x-request-id=" ++ "%ZZ") = "%ZZ"
    ∧ getClientRequestIdForLog true true ("x-request-id=" ++ "%ZZ")
        (some "cached") "u" = ("%ZZ", some "cached")
    ∧ getRequestIdFromCookieL ("x-request-id=" ++ "%ZZ").toList = none :=
  malformed_carrier_returns_raw "%ZZ" (some "cached") "u" (by decide)
    (by decide) (by decide) (by decide) (by decide)
